import Mathlib

/-!
Verification of the altfolio investment service (access policy, aggregation
engine, investment service orchestration) against its specification.

The embedding follows the server sources:
  * `server/models/Investment.js` — schema, `roi`/`absoluteGain` virtuals,
    `getPortfolioTotals`, `getAllocationByType`;
  * `server/middleware/auth.js` — `canAccessInvestment`,
    `validateInvestmentAmount`;
  * `server/routes/investments.js` — validation chain and the
    list/get/create/update/delete/portfolio-summary handlers;
  * `server/routes/dashboard.js` — the dashboard analytics handler.

Monetary amounts are modelled as rationals, dates as integers (epoch order is
all that matters), the Mongo document stores as lists.
-/

/-- Role of an authenticated user: `admin` or `viewer` (any non-admin). -/
inductive Role where
  | admin
  | viewer
deriving DecidableEq

/-- The authenticated identity performing an operation (`req.user`). -/
structure Actor where
  id : Nat
  role : Role
deriving DecidableEq

/-- A user document, reduced to the fields the investment service consults. -/
structure User where
  id : Nat
  isActive : Bool
deriving DecidableEq

/-- An investment document (`server/models/Investment.js` schema). -/
structure Investment where
  id : Nat
  assetName : String
  assetType : String
  investedAmount : ℚ
  currentValue : ℚ
  investmentDate : Int
  owners : List Nat
  description : Option String
  notes : Option String
  isActive : Bool
deriving DecidableEq

/-- The `roi` virtual: `0` when `investedAmount` is `0`, otherwise
`(currentValue - investedAmount) / investedAmount * 100`. -/
def Investment.roi (i : Investment) : ℚ :=
  if i.investedAmount = 0 then 0
  else (i.currentValue - i.investedAmount) / i.investedAmount * 100

/-- The `absoluteGain` virtual: `currentValue - investedAmount`. -/
def Investment.absoluteGain (i : Investment) : ℚ :=
  i.currentValue - i.investedAmount

/-- Query predicate of `GET /api/investments`: `{ isActive: true }`, plus
`owners: req.user._id` for non-admin actors. -/
def listQuery (actor : Actor) (i : Investment) : Bool :=
  if actor.role = Role.admin then i.isActive
  else i.isActive && decide (actor.id ∈ i.owners)

/-- The list handler: filter by `listQuery`, then sort by `investmentDate`
descending (`.sort({ investmentDate: -1 })`, a stable sort). -/
def listInvestments (actor : Actor) (store : List Investment) : List Investment :=
  List.insertionSort (fun a b => b.investmentDate ≤ a.investmentDate)
    (store.filter (listQuery actor))

/-- Match stage shared by `getPortfolioTotals` and `getAllocationByType`:
`{ isActive: true }`, plus `owners: userId` when a user id is supplied. -/
def summaryMatch (userId : Option Nat) (i : Investment) : Bool :=
  match userId with
  | none => i.isActive
  | some u => i.isActive && decide (u ∈ i.owners)

/-- The set of documents entering the portfolio-summary aggregations. -/
def summaryMatched (userId : Option Nat) (store : List Investment) : List Investment :=
  store.filter (summaryMatch userId)

/-- Result shape of `getPortfolioTotals`. -/
structure PortfolioTotals where
  totalInvested : ℚ
  totalCurrentValue : ℚ
  totalGain : ℚ
  totalRoi : ℚ
  investmentCount : Nat
deriving DecidableEq

/-- Group stage and post-processing of `getPortfolioTotals` applied to the
matched documents: an empty aggregation result yields the all-zero record,
otherwise sums are taken and `totalRoi` is computed only when
`totalInvested > 0`. -/
def portfolioTotals (l : List Investment) : PortfolioTotals :=
  if l.isEmpty then
    { totalInvested := 0, totalCurrentValue := 0, totalGain := 0
      totalRoi := 0, investmentCount := 0 }
  else
    let totalInvested := (l.map (·.investedAmount)).sum
    let totalGain := (l.map (fun i => i.currentValue - i.investedAmount)).sum
    { totalInvested := totalInvested
      totalCurrentValue := (l.map (·.currentValue)).sum
      totalGain := totalGain
      totalRoi := if totalInvested > 0 then totalGain / totalInvested * 100 else 0
      investmentCount := l.length }

/-- Static `getPortfolioTotals(userId)` over a store. -/
def getPortfolioTotals (userId : Option Nat) (store : List Investment) : PortfolioTotals :=
  portfolioTotals (summaryMatched userId store)

instance : IsTotal Investment (fun a b => b.investmentDate ≤ a.investmentDate) :=
  ⟨fun a b => le_total b.investmentDate a.investmentDate⟩

instance : IsTrans Investment (fun a b => b.investmentDate ≤ a.investmentDate) :=
  ⟨fun _ _ _ hab hbc => le_trans hbc hab⟩

/-- Sample investment: vineyard farmland owned by user 1. -/
def invFarm : Investment :=
  { id := 1, assetName := "Vineyard", assetType := "Farmland"
    investedAmount := 100000, currentValue := 120000, investmentDate := 10
    owners := [1], description := none, notes := none, isActive := true }

/-- Sample investment: a collectible with zero invested amount, owned by user 2. -/
def invZero : Investment :=
  { id := 2, assetName := "Poster", assetType := "Collectible"
    investedAmount := 0, currentValue := 50, investmentDate := 20
    owners := [2], description := none, notes := none, isActive := true }

/-- Sample investment: a startup stake shared by users 1 and 2. -/
def invStartup : Investment :=
  { id := 3, assetName := "RoboCorp", assetType := "Startup"
    investedAmount := 50000, currentValue := 45000, investmentDate := 30
    owners := [1, 2], description := none, notes := none, isActive := true }

/-- Error taxonomy of the investment routes (distinct HTTP failure responses). -/
inductive ApiError where
  | NotFound
  | Forbidden
  | ValidationError
  | InvalidOwners
  | ForbiddenOwnerSet
  | ForbiddenOwnerRemoval
  | InvestmentCapExceeded
deriving DecidableEq

/-- Request body of `POST /api/investments` and `PUT /api/investments/:id`:
`investmentDate`, `description` and `notes` are optional, the rest required. -/
structure InvestmentData where
  assetName : String
  assetType : String
  investedAmount : ℚ
  currentValue : ℚ
  investmentDate : Option Int
  description : Option String
  notes : Option String
  owners : List Nat
deriving DecidableEq

/-- Leading- and trailing-whitespace removal, the semantics of the
`.trim()` sanitizer applied to `assetName`. -/
def strTrim (s : String) : String :=
  ⟨((s.data.dropWhile Char.isWhitespace).reverse.dropWhile Char.isWhitespace).reverse⟩

/-- The admissible `assetType` values. -/
def assetTypes : List String := ["Startup", "Crypto Fund", "Farmland", "Collectible", "Other"]

/-- The `investmentValidation` chain of the routes: trimmed asset name of
1–100 characters, known asset type, both amounts in `[0, 1e9]`, optional
description up to 500 and notes up to 1000 characters, nonempty owners. -/
def validData (d : InvestmentData) : Bool :=
  decide (1 ≤ (strTrim d.assetName).length) && decide ((strTrim d.assetName).length ≤ 100)
  && assetTypes.contains d.assetType
  && decide (0 ≤ d.investedAmount) && decide (d.investedAmount ≤ 1000000000)
  && decide (0 ≤ d.currentValue) && decide (d.currentValue ≤ 1000000000)
  && (match d.description with
      | none => true
      | some s => decide (s.length ≤ 500))
  && (match d.notes with
      | none => true
      | some s => decide (s.length ≤ 1000))
  && !d.owners.isEmpty

/-- Result of `User.find({ _id: { $in: owners }, isActive: true })`. -/
def ownerUsers (users : List User) (owners : List Nat) : List User :=
  users.filter (fun u => u.isActive && decide (u.id ∈ owners))

/-- The `validateInvestmentAmount` middleware condition: non-admin actors may
not send `investedAmount > 1,000,000`. -/
def capExceeded (actor : Actor) (amount : ℚ) : Bool :=
  decide (actor.role ≠ Role.admin) && decide (amount > 1000000)

/-- `Investment.findById` over the store. -/
def findInvestment (id : Nat) (store : List Investment) : Option Investment :=
  store.find? (fun i => i.id == id)

/-- `GET /api/investments/:id`: the `canAccessInvestment` middleware returns
404 when the id is absent, lets admins through, and rejects non-owners with
403; the handler then returns the document. -/
def getInvestment (actor : Actor) (id : Nat) (store : List Investment) :
    Except ApiError Investment :=
  match findInvestment id store with
  | none => .error .NotFound
  | some inv =>
    if actor.role = Role.admin then .ok inv
    else if actor.id ∈ inv.owners then .ok inv
    else .error .Forbidden

/-- `POST /api/investments`: cap middleware, validation chain, owner
existence check, owner-set rule for non-admins, then persist with
`isActive = true` and the submitted date defaulted to now. -/
def createInvestment (actor : Actor) (d : InvestmentData) (users : List User)
    (now : Int) (newId : Nat) (store : List Investment) :
    Except ApiError (List Investment × Investment) :=
  if capExceeded actor d.investedAmount then .error .InvestmentCapExceeded
  else if !validData d then .error .ValidationError
  else if (ownerUsers users d.owners).length ≠ d.owners.length then .error .InvalidOwners
  else if actor.role ≠ Role.admin ∧ actor.id ∉ d.owners then .error .ForbiddenOwnerSet
  else
    let inv : Investment :=
      { id := newId, assetName := strTrim d.assetName, assetType := d.assetType
        investedAmount := d.investedAmount, currentValue := d.currentValue
        investmentDate := d.investmentDate.getD now, owners := d.owners
        description := d.description, notes := d.notes, isActive := true }
    .ok (store ++ [inv], inv)

/-- Replacement of the first document matching `p` (the single-document
semantics of `findByIdAndUpdate`). -/
def updateFirst (p : Investment → Bool) (f : Investment → Investment) :
    List Investment → List Investment
  | [] => []
  | x :: xs => if p x then f x :: xs else x :: updateFirst p f xs

/-- The document written by the update handler: every destructured body field
is written; `investmentDate` falls back to the current time when omitted,
while omitted `description`/`notes` keys are stripped from the update and so
keep their stored values. `id` and `isActive` are not part of the update. -/
def mergeUpdate (inv : Investment) (d : InvestmentData) (now : Int) : Investment :=
  { inv with
    assetName := strTrim d.assetName
    assetType := d.assetType
    investedAmount := d.investedAmount
    currentValue := d.currentValue
    investmentDate := d.investmentDate.getD now
    description := match d.description with | some s => some s | none => inv.description
    notes := match d.notes with | some s => some s | none => inv.notes
    owners := d.owners }

/-- `PUT /api/investments/:id`: `canAccessInvestment`, cap middleware,
validation chain, owner existence, self-owner rule for non-admins, then
`findByIdAndUpdate` returning the new document. -/
def updateInvestment (actor : Actor) (id : Nat) (d : InvestmentData) (users : List User)
    (now : Int) (store : List Investment) :
    Except ApiError (List Investment × Investment) :=
  match findInvestment id store with
  | none => .error .NotFound
  | some inv =>
    if ¬ (actor.role = Role.admin ∨ actor.id ∈ inv.owners) then .error .Forbidden
    else if capExceeded actor d.investedAmount then .error .InvestmentCapExceeded
    else if !validData d then .error .ValidationError
    else if (ownerUsers users d.owners).length ≠ d.owners.length then .error .InvalidOwners
    else if actor.role ≠ Role.admin ∧ actor.id ∉ d.owners then .error .ForbiddenOwnerRemoval
    else
      .ok (updateFirst (fun i => i.id == id) (fun i => mergeUpdate i d now) store,
        mergeUpdate inv d now)

/-- `DELETE /api/investments/:id`: `canAccessInvestment`, then
`findByIdAndUpdate(id, { isActive: false })`. -/
def softDelete (actor : Actor) (id : Nat) (store : List Investment) :
    Except ApiError (List Investment) :=
  match findInvestment id store with
  | none => .error .NotFound
  | some inv =>
    if actor.role = Role.admin ∨ actor.id ∈ inv.owners then
      .ok (updateFirst (fun i => i.id == id) (fun i => { i with isActive := false }) store)
    else .error .Forbidden

/-- Boolean success marker for a route result. -/
def reqOk {ε α : Type} : Except ε α → Bool
  | .ok _ => true
  | .error _ => false

/-- C1: for a viewer actor, every investment returned by `list` is active and
carries the actor's id among its owners; for every actor the returned list is
ordered by `investmentDate` descending. -/
theorem list_viewer_visibility_and_order (actor : Actor) (store : List Investment) :
    (actor.role = Role.viewer →
      ∀ inv ∈ listInvestments actor store, inv.isActive = true ∧ actor.id ∈ inv.owners)
    ∧ List.Sorted (fun a b => b.investmentDate ≤ a.investmentDate)
        (listInvestments actor store) := by
  constructor
  · intro hrole inv hmem
    have hmem' : inv ∈ store.filter (listQuery actor) :=
      (List.perm_insertionSort _ _).mem_iff.mp hmem
    have hq := List.of_mem_filter hmem'
    rw [listQuery, hrole] at hq
    simpa using hq
  · exact List.sorted_insertionSort _ _

/-- Witness for C1 at a concrete viewer and store. -/
theorem list_viewer_visibility_and_order_witness :
    (∀ inv ∈ listInvestments ⟨1, Role.viewer⟩ [invFarm, invZero, invStartup],
      inv.isActive = true ∧ 1 ∈ inv.owners)
    ∧ List.Sorted (fun a b => b.investmentDate ≤ a.investmentDate)
        (listInvestments ⟨1, Role.viewer⟩ [invFarm, invZero, invStartup]) :=
  ⟨(list_viewer_visibility_and_order ⟨1, Role.viewer⟩ [invFarm, invZero, invStartup]).1 rfl,
    (list_viewer_visibility_and_order ⟨1, Role.viewer⟩ [invFarm, invZero, invStartup]).2⟩

/-- C2: `absoluteGain` is `currentValue - investedAmount`; `roi` is `0` when
`investedAmount = 0` and the ratio formula otherwise, never dividing by zero. -/
theorem roi_absoluteGain_formulas (inv : Investment) :
    inv.absoluteGain = inv.currentValue - inv.investedAmount
    ∧ (inv.investedAmount = 0 → inv.roi = 0)
    ∧ (inv.investedAmount ≠ 0 →
        inv.roi = (inv.currentValue - inv.investedAmount) / inv.investedAmount * 100) := by
  refine ⟨rfl, ?_, ?_⟩
  · intro h
    simp [Investment.roi, h]
  · intro h
    simp [Investment.roi, h]

/-- Witness for C2 at a zero-amount and a nonzero-amount investment. -/
theorem roi_absoluteGain_formulas_witness :
    invZero.roi = 0
    ∧ invFarm.roi =
        (invFarm.currentValue - invFarm.investedAmount) / invFarm.investedAmount * 100 :=
  ⟨(roi_absoluteGain_formulas invZero).2.1 (by decide),
    (roi_absoluteGain_formulas invFarm).2.2 (by decide)⟩

/-- C3: over any list of investments with nonnegative invested amounts,
`portfolioTotals` returns the three sums, the count, and the guarded ROI, with
the empty list giving the all-zero record. -/
theorem portfolioTotals_sums (l : List Investment)
    (h : ∀ i ∈ l, 0 ≤ i.investedAmount) :
    (portfolioTotals l).totalInvested = (l.map (·.investedAmount)).sum
    ∧ (portfolioTotals l).totalCurrentValue = (l.map (·.currentValue)).sum
    ∧ (portfolioTotals l).totalGain = (l.map (fun i => i.currentValue - i.investedAmount)).sum
    ∧ (portfolioTotals l).investmentCount = l.length
    ∧ (portfolioTotals l).totalRoi =
        (if (l.map (·.investedAmount)).sum = 0 then 0
         else (l.map (fun i => i.currentValue - i.investedAmount)).sum
              / (l.map (·.investedAmount)).sum * 100)
    ∧ portfolioTotals ([] : List Investment) =
        { totalInvested := 0, totalCurrentValue := 0, totalGain := 0
          totalRoi := 0, investmentCount := 0 } := by
  cases l with
  | nil => simp [portfolioTotals]
  | cons x xs =>
    have hnn : 0 ≤ ((x :: xs).map (·.investedAmount)).sum := by
      apply List.sum_nonneg
      intro q hq
      obtain ⟨i, hi, rfl⟩ := List.mem_map.mp hq
      exact h i hi
    refine ⟨rfl, rfl, rfl, rfl, ?_, rfl⟩
    have hred : (portfolioTotals (x :: xs)).totalRoi =
        (if 0 < ((x :: xs).map (·.investedAmount)).sum then
          ((x :: xs).map (fun i => i.currentValue - i.investedAmount)).sum
            / ((x :: xs).map (·.investedAmount)).sum * 100 else 0) := rfl
    rw [hred]
    by_cases hz : ((x :: xs).map (·.investedAmount)).sum = 0
    · rw [if_neg (by rw [hz]; exact lt_irrefl 0), if_pos hz]
    · rw [if_pos (lt_of_le_of_ne hnn (Ne.symm hz)), if_neg hz]

/-- Witness for C3 at a concrete three-investment portfolio. -/
theorem portfolioTotals_sums_witness :
    (portfolioTotals [invFarm, invZero, invStartup]).totalInvested =
      ([invFarm, invZero, invStartup].map (·.investedAmount)).sum
    ∧ (portfolioTotals [invFarm, invZero, invStartup]).totalCurrentValue =
      ([invFarm, invZero, invStartup].map (·.currentValue)).sum
    ∧ (portfolioTotals [invFarm, invZero, invStartup]).totalGain =
      ([invFarm, invZero, invStartup].map (fun i => i.currentValue - i.investedAmount)).sum
    ∧ (portfolioTotals [invFarm, invZero, invStartup]).investmentCount = 3
    ∧ (portfolioTotals [invFarm, invZero, invStartup]).totalRoi =
        (if ([invFarm, invZero, invStartup].map (·.investedAmount)).sum = 0 then 0
         else ([invFarm, invZero, invStartup].map (fun i => i.currentValue - i.investedAmount)).sum
              / ([invFarm, invZero, invStartup].map (·.investedAmount)).sum * 100)
    ∧ portfolioTotals ([] : List Investment) =
        { totalInvested := 0, totalCurrentValue := 0, totalGain := 0
          totalRoi := 0, investmentCount := 0 } :=
  portfolioTotals_sums [invFarm, invZero, invStartup] (by decide)

/-- When the user store has distinct ids and every requested owner refers to
some active user, `User.find` returns exactly as many users as owner ids. -/
theorem ownerUsers_length_eq (users : List User) (owners : List Nat)
    (hu : (users.map (·.id)).Nodup) (ho : owners.Nodup)
    (hex : ∀ o ∈ owners, ∃ u ∈ users, u.id = o ∧ u.isActive = true) :
    (ownerUsers users owners).length = owners.length := by
  classical
  have hsub : ((ownerUsers users owners).map (·.id)).Sublist (users.map (·.id)) :=
    (List.filter_sublist users).map _
  have hnd : ((ownerUsers users owners).map (·.id)).Nodup := hu.sublist hsub
  have hmem : ∀ x, x ∈ (ownerUsers users owners).map (·.id) ↔ x ∈ owners := by
    intro x
    constructor
    · intro hx
      obtain ⟨u, hu', rfl⟩ := List.mem_map.mp hx
      have hq := List.of_mem_filter hu'
      exact of_decide_eq_true (Bool.and_elim_right hq)
    · intro hx
      obtain ⟨u, hu', hid, hact⟩ := hex x hx
      refine List.mem_map.mpr ⟨u, List.mem_filter.mpr ⟨hu', ?_⟩, hid⟩
      refine Bool.and_intro hact (decide_eq_true ?_)
      rw [hid]
      exact hx
  have hfin : ((ownerUsers users owners).map (·.id)).toFinset = owners.toFinset := by
    ext x
    rw [List.mem_toFinset, List.mem_toFinset]
    exact hmem x
  calc (ownerUsers users owners).length
      = ((ownerUsers users owners).map (·.id)).length := by rw [List.length_map]
    _ = ((ownerUsers users owners).map (·.id)).toFinset.card :=
        (List.toFinset_card_of_nodup hnd).symm
    _ = owners.toFinset.card := by rw [hfin]
    _ = owners.length := List.toFinset_card_of_nodup ho

/-- C4: a viewer's create or update carrying `investedAmount = 1,000,001`
fails with `InvestmentCapExceeded`; an admin's succeeds (other validations
passing); and every actor's create or update fails above `1,000,000,000`. -/
theorem investment_cap_rules
    (v a : Actor) (d dBig : InvestmentData) (users : List User)
    (now : Int) (newId : Nat) (store : List Investment) (X : Nat) (inv : Investment)
    (hv : v.role = Role.viewer) (ha : a.role = Role.admin)
    (hamt : d.investedAmount = 1000001)
    (hvalid : validData d = true)
    (howners : (ownerUsers users d.owners).length = d.owners.length)
    (hbig : dBig.investedAmount > 1000000000)
    (hfind : findInvestment X store = some inv)
    (hacc : v.id ∈ inv.owners) :
    createInvestment v d users now newId store = .error .InvestmentCapExceeded
    ∧ updateInvestment v X d users now store = .error .InvestmentCapExceeded
    ∧ reqOk (createInvestment a d users now newId store) = true
    ∧ reqOk (updateInvestment a X d users now store) = true
    ∧ reqOk (createInvestment v dBig users now newId store) = false
    ∧ reqOk (createInvestment a dBig users now newId store) = false
    ∧ reqOk (updateInvestment v X dBig users now store) = false
    ∧ reqOk (updateInvestment a X dBig users now store) = false := by
  have hcapv : capExceeded v d.investedAmount = true := by
    simp +decide [capExceeded, hv, hamt]
  have hcapa : ∀ q : ℚ, capExceeded a q = false := by
    intro q
    simp [capExceeded, ha]
  have hbig6 : dBig.investedAmount > 1000000 := lt_trans (by norm_num) hbig
  have hcapvBig : capExceeded v dBig.investedAmount = true := by
    simp +decide [capExceeded, hv, hbig6]
  have hinvalidBig : validData dBig = false := by
    have hd : decide (dBig.investedAmount ≤ 1000000000) = false :=
      decide_eq_false (not_le.mpr hbig)
    simp [validData, hd]
  refine ⟨?_, ?_, ?_, ?_, ?_, ?_, ?_, ?_⟩
  · simp [createInvestment, hcapv]
  · simp [updateInvestment, hfind, hacc, hcapv]
  · simp [createInvestment, hcapa, hvalid, howners, ha, reqOk]
  · simp [updateInvestment, hfind, hcapa, hvalid, howners, ha, reqOk]
  · simp [createInvestment, hcapvBig, reqOk]
  · simp [createInvestment, hcapa, hinvalidBig, reqOk]
  · simp [updateInvestment, hfind, hacc, hcapvBig, reqOk]
  · simp [updateInvestment, hfind, hcapa, hinvalidBig, ha, reqOk]

/-- Sample create body: startup stake for owner 1 at the viewer cap boundary. -/
def dataCap : InvestmentData :=
  { assetName := "SeedRound", assetType := "Startup"
    investedAmount := 1000001, currentValue := 900000
    investmentDate := some 40, description := none, notes := none, owners := [1] }

/-- Sample create body: amount above the global billion bound. -/
def dataBig : InvestmentData :=
  { assetName := "Megafund", assetType := "Other"
    investedAmount := 2000000000, currentValue := 100
    investmentDate := some 41, description := none, notes := none, owners := [1] }

/-- Sample user store: active user 1, active user 2. -/
def usersStd : List User := [⟨1, true⟩, ⟨2, true⟩]

/-- Witness for C4 at concrete actors, bodies and store. -/
theorem investment_cap_rules_witness :
    createInvestment ⟨1, Role.viewer⟩ dataCap usersStd 50 7 [invFarm]
        = .error .InvestmentCapExceeded
    ∧ updateInvestment ⟨1, Role.viewer⟩ 1 dataCap usersStd 50 [invFarm]
        = .error .InvestmentCapExceeded
    ∧ reqOk (createInvestment ⟨9, Role.admin⟩ dataCap usersStd 50 7 [invFarm]) = true
    ∧ reqOk (updateInvestment ⟨9, Role.admin⟩ 1 dataCap usersStd 50 [invFarm]) = true
    ∧ reqOk (createInvestment ⟨1, Role.viewer⟩ dataBig usersStd 50 7 [invFarm]) = false
    ∧ reqOk (createInvestment ⟨9, Role.admin⟩ dataBig usersStd 50 7 [invFarm]) = false
    ∧ reqOk (updateInvestment ⟨1, Role.viewer⟩ 1 dataBig usersStd 50 [invFarm]) = false
    ∧ reqOk (updateInvestment ⟨9, Role.admin⟩ 1 dataBig usersStd 50 [invFarm]) = false := by
  have h := investment_cap_rules ⟨1, Role.viewer⟩ ⟨9, Role.admin⟩ dataCap dataBig usersStd
    50 7 [invFarm] 1 invFarm rfl rfl (by decide) (by decide) (by decide) (by decide)
    (by decide) (by decide)
  exact h

/-- C5: a viewer's create whose owner set excludes the viewer fails with
`ForbiddenOwnerSet`; an admin's create succeeds with any nonempty duplicate-free
owner set of existing active users, other validations passing. -/
theorem create_owner_rule
    (v a : Actor) (d da : InvestmentData) (users : List User)
    (now : Int) (newId : Nat) (store : List Investment)
    (hv : v.role = Role.viewer) (ha : a.role = Role.admin)
    (hcap : d.investedAmount ≤ 1000000)
    (hvalid : validData d = true)
    (howners : (ownerUsers users d.owners).length = d.owners.length)
    (hnot : v.id ∉ d.owners)
    (hdavalid : validData da = true)
    (hdanodup : da.owners.Nodup)
    (hunodup : (users.map (·.id)).Nodup)
    (hex : ∀ o ∈ da.owners, ∃ u ∈ users, u.id = o ∧ u.isActive = true) :
    createInvestment v d users now newId store = .error .ForbiddenOwnerSet
    ∧ reqOk (createInvestment a da users now newId store) = true := by
  have hcapv : capExceeded v d.investedAmount = false := by
    simp [capExceeded, not_lt.mpr hcap]
  have hlen : (ownerUsers users da.owners).length = da.owners.length :=
    ownerUsers_length_eq users da.owners hunodup hdanodup hex
  constructor
  · simp [createInvestment, hcapv, hvalid, howners, hv, hnot]
  · simp [createInvestment, capExceeded, ha, hdavalid, hlen, reqOk]

/-- Sample create body excluding viewer 1 from the owners. -/
def dataOther : InvestmentData :=
  { assetName := "Warehouse", assetType := "Other"
    investedAmount := 5000, currentValue := 5000
    investmentDate := some 42, description := none, notes := none, owners := [2] }

/-- Witness for C5 at a concrete viewer, admin, and owner sets. -/
theorem create_owner_rule_witness :
    createInvestment ⟨1, Role.viewer⟩ dataOther usersStd 50 7 [] = .error .ForbiddenOwnerSet
    ∧ reqOk (createInvestment ⟨9, Role.admin⟩ dataOther usersStd 50 7 []) = true := by
  have h := create_owner_rule ⟨1, Role.viewer⟩ ⟨9, Role.admin⟩ dataOther dataOther usersStd
    50 7 [] rfl rfl (by decide) (by decide) (by decide) (by decide) (by decide) (by decide)
    (by decide) (by decide)
  exact h


/-- Both branches of the list query require `isActive`. -/
theorem listQuery_isActive (a : Actor) (i : Investment) (h : listQuery a i = true) :
    i.isActive = true := by
  rw [listQuery] at h
  split at h
  · exact h
  · exact Bool.and_elim_left h

/-- Both branches of the summary match stage require `isActive`. -/
theorem summaryMatch_isActive (u : Option Nat) (i : Investment)
    (h : summaryMatch u i = true) : i.isActive = true := by
  cases u with
  | none => exact h
  | some x => exact Bool.and_elim_left h

/-- In a store with distinct ids, every member of the soft-deleted store whose
id is the deleted one is inactive. -/
theorem updateFirst_deactivate_mem (X : Nat) (l : List Investment)
    (hnd : (l.map (·.id)).Nodup) (i : Investment)
    (hi : i ∈ updateFirst (fun j => j.id == X) (fun j => { j with isActive := false }) l)
    (hid : i.id = X) : i.isActive = false := by
  induction l with
  | nil => cases hi
  | cons x xs ih =>
    rw [List.map_cons, List.nodup_cons] at hnd
    rw [updateFirst] at hi
    by_cases hx : x.id = X
    · rw [if_pos (by simpa using hx)] at hi
      rcases List.mem_cons.mp hi with rfl | hmem
      · rfl
      · exfalso
        apply hnd.1
        rw [hx, ← hid]
        exact List.mem_map_of_mem _ hmem
    · rw [if_neg (by simpa using hx)] at hi
      rcases List.mem_cons.mp hi with rfl | hmem
      · exact absurd hid hx
      · exact ih hnd.2 hmem

/-- The soft-delete write commutes with `findById`: the result is the old
lookup with only `isActive` cleared. -/
theorem findInvestment_updateFirst (X : Nat) (l : List Investment) :
    findInvestment X
        (updateFirst (fun j => j.id == X) (fun j => { j with isActive := false }) l)
      = (findInvestment X l).map (fun j => { j with isActive := false }) := by
  induction l with
  | nil => rfl
  | cons x xs ih =>
    rw [updateFirst]
    by_cases hx : x.id = X
    · rw [if_pos (by simpa using hx)]
      rw [findInvestment, findInvestment, List.find?_cons_of_pos _ (by simpa using hx),
        List.find?_cons_of_pos _ (by simpa using hx)]
      rfl
    · rw [if_neg (by simpa using hx)]
      rw [findInvestment, findInvestment, List.find?_cons_of_neg _ (by simpa using hx),
        List.find?_cons_of_neg _ (by simpa using hx)]
      exact ih

/-- C6: after a successful `softDelete` of id `X` over a store with distinct
ids, `X` appears in no `list` result for any actor and in no document feeding
`portfolioSummary` for any scope, while `get` as an admin still returns the
record, changed only by `isActive := false`. -/
theorem softDelete_frame
    (actor adm : Actor) (X : Nat) (store store' : List Investment)
    (hnd : (store.map (·.id)).Nodup)
    (hadm : adm.role = Role.admin)
    (h : softDelete actor X store = .ok store') :
    (∀ a, ∀ i ∈ listInvestments a store', i.id ≠ X)
    ∧ (∀ u, ∀ i ∈ summaryMatched u store', i.id ≠ X)
    ∧ (∃ inv, findInvestment X store = some inv
        ∧ getInvestment adm X store' = .ok { inv with isActive := false }) := by
  cases hfd : findInvestment X store with
  | none =>
    simp only [softDelete, hfd] at h
    exact absurd h (by simp)
  | some inv =>
    simp only [softDelete, hfd] at h
    by_cases hacc : actor.role = Role.admin ∨ actor.id ∈ inv.owners
    · rw [if_pos hacc] at h
      injection h with hst
      subst hst
      refine ⟨?_, ?_, inv, rfl, ?_⟩
      · intro a i hi hid
        have hmem : i ∈ (updateFirst (fun j => j.id == X)
            (fun j => { j with isActive := false }) store).filter (listQuery a) :=
          (List.perm_insertionSort _ _).mem_iff.mp hi
        have hact := listQuery_isActive a i (List.of_mem_filter hmem)
        have hinact := updateFirst_deactivate_mem X store hnd i (List.mem_of_mem_filter hmem) hid
        rw [hact] at hinact
        cases hinact
      · intro u i hi hid
        have hact := summaryMatch_isActive u i (List.of_mem_filter hi)
        have hinact := updateFirst_deactivate_mem X store hnd i (List.mem_of_mem_filter hi) hid
        rw [hact] at hinact
        cases hinact
      · rw [getInvestment, findInvestment_updateFirst X store, hfd]
        simp [hadm]
    · rw [if_neg hacc] at h
      exact absurd h (by simp)

/-- Witness for C6: viewer 1 soft-deletes the vineyard; checked by admin 9. -/
theorem softDelete_frame_witness :
    (∀ a, ∀ i ∈ listInvestments a [{ invFarm with isActive := false }, invZero], i.id ≠ 1)
    ∧ (∀ u, ∀ i ∈ summaryMatched u [{ invFarm with isActive := false }, invZero], i.id ≠ 1)
    ∧ (∃ inv, findInvestment 1 [invFarm, invZero] = some inv
        ∧ getInvestment ⟨9, Role.admin⟩ 1 [{ invFarm with isActive := false }, invZero]
            = .ok { inv with isActive := false }) :=
  softDelete_frame ⟨1, Role.viewer⟩ ⟨9, Role.admin⟩ 1 [invFarm, invZero]
    [{ invFarm with isActive := false }, invZero] (by decide) rfl rfl

/-- C9: for the id-addressed operations, a missing id yields `NotFound` for
every actor, and `Forbidden` arises only when the record exists and the actor
is neither an admin nor one of its owners. -/
theorem id_ops_notFound_precedence
    (actor : Actor) (id : Nat) (d : InvestmentData) (users : List User)
    (now : Int) (store : List Investment) :
    (findInvestment id store = none →
      getInvestment actor id store = .error .NotFound
      ∧ updateInvestment actor id d users now store = .error .NotFound
      ∧ softDelete actor id store = .error .NotFound)
    ∧ (getInvestment actor id store = .error .Forbidden →
        ∃ inv, findInvestment id store = some inv
          ∧ actor.role ≠ Role.admin ∧ actor.id ∉ inv.owners)
    ∧ (updateInvestment actor id d users now store = .error .Forbidden →
        ∃ inv, findInvestment id store = some inv
          ∧ actor.role ≠ Role.admin ∧ actor.id ∉ inv.owners)
    ∧ (softDelete actor id store = .error .Forbidden →
        ∃ inv, findInvestment id store = some inv
          ∧ actor.role ≠ Role.admin ∧ actor.id ∉ inv.owners) := by
  cases hfd : findInvestment id store with
  | none =>
    refine ⟨fun _ => ?_, ?_, ?_, ?_⟩
    · exact ⟨by simp [getInvestment, hfd], by simp [updateInvestment, hfd],
        by simp [softDelete, hfd]⟩
    · intro h
      simp [getInvestment, hfd] at h
    · intro h
      simp [updateInvestment, hfd] at h
    · intro h
      simp [softDelete, hfd] at h
  | some inv =>
    refine ⟨fun hno => absurd hno (by simp), ?_, ?_, ?_⟩
    · intro h
      simp only [getInvestment, hfd] at h
      by_cases hadm : actor.role = Role.admin
      · rw [if_pos hadm] at h
        exact absurd h (by simp)
      · rw [if_neg hadm] at h
        by_cases hmem : actor.id ∈ inv.owners
        · rw [if_pos hmem] at h
          exact absurd h (by simp)
        · exact ⟨inv, rfl, hadm, hmem⟩
    · intro h
      simp only [updateInvestment, hfd] at h
      by_cases hacc : actor.role = Role.admin ∨ actor.id ∈ inv.owners
      · rw [if_neg (not_not_intro hacc)] at h
        split at h
        · exact absurd h (by simp)
        · split at h
          · exact absurd h (by simp)
          · split at h
            · exact absurd h (by simp)
            · split at h
              · exact absurd h (by simp)
              · exact absurd h (by simp)
      · rw [if_pos hacc] at h
        exact ⟨inv, rfl, (not_or.mp hacc).1, (not_or.mp hacc).2⟩
    · intro h
      simp only [softDelete, hfd] at h
      by_cases hacc : actor.role = Role.admin ∨ actor.id ∈ inv.owners
      · rw [if_pos hacc] at h
        exact absurd h (by simp)
      · rw [if_neg hacc] at h
        exact ⟨inv, rfl, (not_or.mp hacc).1, (not_or.mp hacc).2⟩

/-- Witness for C9 at a missing id. -/
theorem id_ops_notFound_precedence_witness :
    getInvestment ⟨3, Role.viewer⟩ 99 [invFarm] = .error .NotFound
    ∧ updateInvestment ⟨3, Role.viewer⟩ 99 dataOther usersStd 50 [invFarm] = .error .NotFound
    ∧ softDelete ⟨3, Role.viewer⟩ 99 [invFarm] = .error .NotFound :=
  (id_ops_notFound_precedence ⟨3, Role.viewer⟩ 99 dataOther usersStd 50 [invFarm]).1 rfl

/-- Distinct values of a list in order of first occurrence — the key order in
which a JS object built by `allocation[type] = ...` enumerates its keys. -/
def firstDedup : List String → List String
  | [] => []
  | x :: xs => x :: firstDedup (xs.filter (fun y => y != x))
termination_by l => l.length
decreasing_by
  simp only [List.length_cons]
  exact Nat.lt_succ_of_le (List.length_filter_le _ _)

/-- Membership is preserved by first-occurrence deduplication. -/
theorem mem_firstDedup (a : String) (l : List String) : a ∈ firstDedup l ↔ a ∈ l := by
  induction l using firstDedup.induct with
  | case1 => simp [firstDedup]
  | case2 x xs ih =>
    rw [firstDedup]
    simp only [List.mem_cons, ih, List.mem_filter, bne_iff_ne, ne_eq]
    constructor
    · rintro (rfl | ⟨h, _⟩)
      · exact Or.inl rfl
      · exact Or.inr h
    · rintro (rfl | h)
      · exact Or.inl rfl
      · by_cases hax : a = x
        · exact Or.inl hax
        · exact Or.inr ⟨h, hax⟩

/-- First-occurrence deduplication produces no duplicates. -/
theorem nodup_firstDedup (l : List String) : (firstDedup l).Nodup := by
  induction l using firstDedup.induct with
  | case1 => simp [firstDedup]
  | case2 x xs ih =>
    rw [firstDedup, List.nodup_cons]
    refine ⟨?_, ih⟩
    intro hx
    have := (List.mem_filter.mp ((mem_firstDedup x _).mp hx)).2
    simp at this

/-- One row of the allocation-by-type aggregation. -/
structure AllocEntry where
  assetType : String
  totalInvested : ℚ
  totalCurrentValue : ℚ
  count : Nat
deriving DecidableEq

/-- The documents of one asset type. -/
def typeGroup (t : String) (l : List Investment) : List Investment :=
  l.filter (fun i => i.assetType == t)

/-- The aggregation row of one asset type: sums of `investedAmount` and
`currentValue` and the document count. -/
def typeEntry (t : String) (l : List Investment) : AllocEntry :=
  { assetType := t
    totalInvested := ((typeGroup t l).map (·.investedAmount)).sum
    totalCurrentValue := ((typeGroup t l).map (·.currentValue)).sum
    count := (typeGroup t l).length }

/-- The `$group: { _id: "$assetType", ... }` stage: one row per asset type
present in the input. -/
def groupByType (l : List Investment) : List AllocEntry :=
  (firstDedup (l.map (·.assetType))).map (fun t => typeEntry t l)

/-- `getAllocationByType` applied to an input set: group by asset type, then
`$sort: { totalCurrentValue: -1 }`. -/
def allocationOfList (l : List Investment) : List AllocEntry :=
  List.insertionSort (fun a b => b.totalCurrentValue ≤ a.totalCurrentValue) (groupByType l)

/-- Static `getAllocationByType(userId)` over a store. -/
def getAllocationByType (userId : Option Nat) (store : List Investment) : List AllocEntry :=
  allocationOfList (summaryMatched userId store)

instance : IsTotal AllocEntry (fun a b => b.totalCurrentValue ≤ a.totalCurrentValue) :=
  ⟨fun a b => le_total b.totalCurrentValue a.totalCurrentValue⟩

instance : IsTrans AllocEntry (fun a b => b.totalCurrentValue ≤ a.totalCurrentValue) :=
  ⟨fun _ _ _ hab hbc => le_trans hbc hab⟩

/-- The asset types of the grouped rows are the deduplicated input types. -/
theorem groupByType_types (l : List Investment) :
    (groupByType l).map (·.assetType) = firstDedup (l.map (·.assetType)) := by
  rw [groupByType, List.map_map]
  exact List.map_id _

/-- C7: `allocationByType` yields exactly one row per asset type present in
the input, each row carrying that type's sums and count, and the rows are
sorted by `totalCurrentValue` descending. -/
theorem allocationByType_rows (l : List Investment) :
    ((allocationOfList l).map (·.assetType)).Nodup
    ∧ (∀ t, (∃ e ∈ allocationOfList l, e.assetType = t) ↔ (∃ i ∈ l, i.assetType = t))
    ∧ (∀ e ∈ allocationOfList l,
        e.totalInvested = ((typeGroup e.assetType l).map (·.investedAmount)).sum
        ∧ e.totalCurrentValue = ((typeGroup e.assetType l).map (·.currentValue)).sum
        ∧ e.count = (typeGroup e.assetType l).length)
    ∧ List.Sorted (fun a b => b.totalCurrentValue ≤ a.totalCurrentValue)
        (allocationOfList l) := by
  have hperm : List.Perm (allocationOfList l) (groupByType l) := List.perm_insertionSort _ _
  refine ⟨?_, ?_, ?_, List.sorted_insertionSort _ _⟩
  · have h1 : ((allocationOfList l).map (·.assetType)).Nodup
        ↔ ((groupByType l).map (·.assetType)).Nodup :=
      (hperm.map _).nodup_iff
    rw [h1, groupByType_types]
    exact nodup_firstDedup _
  · intro t
    constructor
    · rintro ⟨e, he, rfl⟩
      have hg := hperm.mem_iff.mp he
      obtain ⟨t', ht', rfl⟩ := List.mem_map.mp hg
      have : t' ∈ l.map (·.assetType) := (mem_firstDedup t' _).mp ht'
      obtain ⟨i, hi, rfl⟩ := List.mem_map.mp this
      exact ⟨i, hi, rfl⟩
    · rintro ⟨i, hi, rfl⟩
      refine ⟨typeEntry i.assetType l, ?_, rfl⟩
      refine hperm.mem_iff.mpr (List.mem_map.mpr ⟨i.assetType, ?_, rfl⟩)
      exact (mem_firstDedup _ _).mpr (List.mem_map_of_mem _ hi)
  · intro e he
    have hg := hperm.mem_iff.mp he
    obtain ⟨t', _, rfl⟩ := List.mem_map.mp hg
    exact ⟨rfl, rfl, rfl⟩

/-- Witness for C7 at a concrete mixed-type portfolio. -/
theorem allocationByType_rows_witness :
    ((allocationOfList [invFarm, invZero, invStartup]).map (·.assetType)).Nodup
    ∧ List.Sorted (fun a b => b.totalCurrentValue ≤ a.totalCurrentValue)
        (allocationOfList [invFarm, invZero, invStartup]) :=
  ⟨(allocationByType_rows [invFarm, invZero, invStartup]).1,
    (allocationByType_rows [invFarm, invZero, invStartup]).2.2.2⟩

/-- Response shape of `GET /api/dashboard`. -/
structure DashboardData where
  summary : PortfolioTotals
  allocation : List AllocEntry
  investments : List Investment
deriving DecidableEq

/-- The dashboard handler: `Investment.find({ isActive: true })` with no
owner filter, a `forEach` summary with ROI set only when `totalInvested > 0`,
an allocation object keyed by asset type in first-occurrence order, and the
full active investment list; `req.user` is never consulted. -/
def dashboardData (actor : Actor) (store : List Investment) : DashboardData :=
  let invs := store.filter (fun i => i.isActive)
  let totalInvested := (invs.map (·.investedAmount)).sum
  let totalGain := (invs.map (fun i => i.currentValue - i.investedAmount)).sum
  { summary :=
      { totalInvested := totalInvested
        totalCurrentValue := (invs.map (·.currentValue)).sum
        totalGain := totalGain
        totalRoi := if totalInvested > 0 then totalGain / totalInvested * 100 else 0
        investmentCount := invs.length }
    allocation := groupByType invs
    investments := invs }

/-- C10: the dashboard computes over all active investments for every
authenticated actor — two actors always receive identical results, and the
served investment list is the unfiltered active set, with no ownership or
role restriction. -/
theorem dashboard_role_blind (a1 a2 : Actor) (store : List Investment) :
    dashboardData a1 store = dashboardData a2 store
    ∧ (dashboardData a1 store).investments = store.filter (fun i => i.isActive)
    ∧ (dashboardData a1 store).allocation = groupByType (store.filter (fun i => i.isActive)) :=
  ⟨rfl, rfl, rfl⟩

/-- Update body matching the stored vineyard but omitting `investmentDate`. -/
def dNoDate : InvestmentData :=
  { assetName := "Vineyard", assetType := "Farmland"
    investedAmount := 100000, currentValue := 120000
    investmentDate := none, description := none, notes := none, owners := [1] }

/-- C8 counterexample: an update whose body omits `investmentDate` does not
retain the stored date (`10`); the handler writes the current time (`99`). -/
theorem update_omitted_date_not_retained :
    (updateInvestment ⟨9, Role.admin⟩ 1 dNoDate usersStd 99 [invFarm]).map
        (fun r => r.2.investmentDate) = .ok 99
    ∧ invFarm.investmentDate = 10 :=
  ⟨rfl, rfl⟩

/-- C8 amended: a permitted update replaces the required fields wholesale with
the supplied values (validated, owner rule and cap applied to them), keeps the
stored `description`/`notes` when those are omitted, keeps `id` and
`isActive`, but writes `now` — not the stored date — when `investmentDate` is
omitted; the store is persisted and the updated record returned. -/
theorem update_replaces_fields
    (actor : Actor) (id : Nat) (d : InvestmentData) (users : List User)
    (now : Int) (store : List Investment) (inv : Investment)
    (hfind : findInvestment id store = some inv)
    (hacc : actor.role = Role.admin ∨ actor.id ∈ inv.owners)
    (hcap : capExceeded actor d.investedAmount = false)
    (hvalid : validData d = true)
    (howners : (ownerUsers users d.owners).length = d.owners.length)
    (hown : actor.role = Role.admin ∨ actor.id ∈ d.owners) :
    updateInvestment actor id d users now store =
      .ok (updateFirst (fun i => i.id == id) (fun i => mergeUpdate i d now) store,
        mergeUpdate inv d now)
    ∧ (mergeUpdate inv d now).assetName = strTrim d.assetName
    ∧ (mergeUpdate inv d now).assetType = d.assetType
    ∧ (mergeUpdate inv d now).investedAmount = d.investedAmount
    ∧ (mergeUpdate inv d now).currentValue = d.currentValue
    ∧ (mergeUpdate inv d now).owners = d.owners
    ∧ (mergeUpdate inv d now).investmentDate = d.investmentDate.getD now
    ∧ (mergeUpdate inv d now).description
        = (match d.description with | some s => some s | none => inv.description)
    ∧ (mergeUpdate inv d now).notes
        = (match d.notes with | some s => some s | none => inv.notes)
    ∧ (mergeUpdate inv d now).id = inv.id
    ∧ (mergeUpdate inv d now).isActive = inv.isActive := by
  have hownrule : ¬ (actor.role ≠ Role.admin ∧ actor.id ∉ d.owners) := by
    rcases hown with h | h
    · exact fun hc => hc.1 h
    · exact fun hc => hc.2 h
  refine ⟨?_, rfl, rfl, rfl, rfl, rfl, rfl, rfl, rfl, rfl, rfl⟩
  simp only [updateInvestment, hfind]
  simp [hacc, hcap, hvalid, howners, hownrule]

/-- Witness for the amended C8 at a concrete admin update. -/
theorem update_replaces_fields_witness :
    updateInvestment ⟨9, Role.admin⟩ 1 dataOther usersStd 50 [invFarm] =
      .ok (updateFirst (fun i => i.id == 1) (fun i => mergeUpdate i dataOther 50) [invFarm],
        mergeUpdate invFarm dataOther 50) :=
  (update_replaces_fields ⟨9, Role.admin⟩ 1 dataOther usersStd 50 [invFarm] invFarm rfl
    (Or.inl rfl) (by decide) (by decide) (by decide) (Or.inl rfl)).1
